import Mathlib

/-!
Verification of the numeric core of the `zuy` repository: the peak detector
`src/zuy/spectrum/detect_peaks.py`, the three baseline-correction variants in
`src/zuy/spectrum/baseline.py`, and the processing mixin in
`src/zuy/spectrum/emsa.py`.

Machine floats are embedded as exact rationals extended with the IEEE special
values NaN, +Inf and -Inf (type `F` below).  Rounding plays no role in any of
the verified properties, while the propagation rules for the special values do
(`np.isnan` checks, comparisons with NaN, `np.maximum` propagating NaN), so the
embedding keeps the special values exact and the finite arithmetic exact.

External library calls whose numerics are irrelevant to the verified
properties are taken as explicit function parameters: the sparse linear solver
`scipy.sparse.linalg.spsolve` (and the Cholesky solve path), and the
transcendental kernels `exp` / `sqrt` used by the arPLS weight update.  The
matrices fed to the solver (the penalty operators) are built concretely.
-/

/-- A float value: an exact rational, or one of the IEEE special values.
Models `np.float64` up to rounding (which no verified property depends on). -/
inductive F where
  | fin (q : ℚ)
  | nan
  | inf
  | ninf
deriving DecidableEq, Repr

instance : OfNat F 0 := ⟨F.fin 0⟩
instance : OfNat F 1 := ⟨F.fin 1⟩

/-- Kernel-reducible rational addition (`Rat.add` is `@[irreducible]`, which
blocks `decide`-style evaluation; this is the same value). -/
def qadd (a b : ℚ) : ℚ := mkRat (a.num * b.den + b.num * a.den) (a.den * b.den)

/-- Kernel-reducible rational multiplication. -/
def qmul (a b : ℚ) : ℚ := mkRat (a.num * b.num) (a.den * b.den)

/-- Kernel-reducible rational division (callers never pass `b = 0`). -/
def qdiv (a b : ℚ) : ℚ :=
  if b.num < 0 then mkRat (-(a.num * (b.den : ℤ))) (a.den * b.num.natAbs)
  else mkRat (a.num * b.den) (a.den * b.num.natAbs)

theorem qadd_eq (a b : ℚ) : qadd a b = a + b := by
  have ha : ((a.den : ℤ)) ≠ 0 := Int.natCast_ne_zero.mpr a.den_ne_zero
  have hb : ((b.den : ℤ)) ≠ 0 := Int.natCast_ne_zero.mpr b.den_ne_zero
  rw [qadd, Rat.mkRat_eq_divInt]
  conv_rhs => rw [← Rat.num_divInt_den a, ← Rat.num_divInt_den b]
  rw [Rat.divInt_add_divInt _ _ ha hb]
  push_cast
  congr 1

theorem qmul_eq (a b : ℚ) : qmul a b = a * b := by
  rw [qmul, Rat.mkRat_eq_divInt]
  conv_rhs => rw [← Rat.num_divInt_den a, ← Rat.num_divInt_den b]
  rw [Rat.divInt_mul_divInt' a.num (a.den : ℤ) b.num (b.den : ℤ)]
  push_cast
  rfl

namespace F

/-- IEEE negation. -/
def fneg : F → F
  | fin q => fin (-q)
  | nan => nan
  | inf => ninf
  | ninf => inf

/-- IEEE addition on extended rationals: NaN propagates, `inf + -inf = NaN`. -/
def fadd : F → F → F
  | fin a, fin b => fin (qadd a b)
  | fin _, inf => inf
  | fin _, ninf => ninf
  | inf, fin _ => inf
  | ninf, fin _ => ninf
  | inf, inf => inf
  | ninf, ninf => ninf
  | inf, ninf => nan
  | ninf, inf => nan
  | _, _ => nan

/-- IEEE subtraction. -/
def fsub (a b : F) : F := fadd a (fneg b)

/-- IEEE multiplication: NaN propagates, `0 * inf = NaN`. -/
def fmul : F → F → F
  | fin a, fin b => fin (qmul a b)
  | fin a, inf => if a > 0 then inf else if a < 0 then ninf else nan
  | fin a, ninf => if a > 0 then ninf else if a < 0 then inf else nan
  | inf, fin b => if b > 0 then inf else if b < 0 then ninf else nan
  | ninf, fin b => if b > 0 then ninf else if b < 0 then inf else nan
  | inf, inf => inf
  | ninf, ninf => inf
  | inf, ninf => ninf
  | ninf, inf => ninf
  | _, _ => nan

/-- IEEE division (single unsigned zero: `a/0` follows the sign of `a`,
`0/0 = NaN`). -/
def fdiv : F → F → F
  | fin a, fin b =>
      if b = 0 then (if a > 0 then inf else if a < 0 then ninf else nan)
      else fin (qdiv a b)
  | fin _, inf => fin 0
  | fin _, ninf => fin 0
  | inf, fin b => if b < 0 then ninf else inf
  | ninf, fin b => if b < 0 then inf else ninf
  | _, _ => nan

/-- IEEE strict less-than: any comparison involving NaN is false. -/
def flt : F → F → Bool
  | fin a, fin b => a < b
  | fin _, inf => true
  | ninf, fin _ => true
  | ninf, inf => true
  | _, _ => false

/-- IEEE less-or-equal: any comparison involving NaN is false. -/
def fle : F → F → Bool
  | fin a, fin b => a ≤ b
  | fin _, inf => true
  | ninf, fin _ => true
  | ninf, inf => true
  | inf, inf => true
  | ninf, ninf => true
  | _, _ => false

/-- IEEE strict greater-than. -/
def fgt (a b : F) : Bool := flt b a

/-- IEEE greater-or-equal. -/
def fge (a b : F) : Bool := fle b a

/-- `np.isnan`. -/
def isnan : F → Bool
  | nan => true
  | _ => false

/-- `np.isfinite`. -/
def isFinite : F → Bool
  | fin _ => true
  | _ => false

/-- `np.minimum`: propagates NaN (unlike `fmin`). -/
def fminimum (a b : F) : F :=
  if a.isnan || b.isnan then nan else if flt b a then b else a

/-- `np.maximum`: propagates NaN (unlike `fmax`). -/
def fmaximum (a b : F) : F :=
  if a.isnan || b.isnan then nan else if flt a b then b else a

/-- Sort key used by `np.sort`/`np.argsort`: `-inf < finite < inf < NaN`
(numpy sorts NaN to the end).  Strict comparison of keys. -/
def keyLt : F → F → Bool
  | fin a, fin b => a < b
  | fin _, inf => true
  | fin _, nan => true
  | ninf, fin _ => true
  | ninf, inf => true
  | ninf, nan => true
  | inf, nan => true
  | _, _ => false

end F

open F

/-- Elementwise subtraction of two equal-length float vectors (`y - z`). -/
def fsubList (y z : List F) : List F := List.zipWith fsub y z

/-- Elementwise addition of a scalar (`y + c`). -/
def faddScalar (y : List F) (c : ℚ) : List F := y.map (fun v => fadd v (F.fin c))

/-- `np.sort` on an index array (ascending). -/
def npSort (l : List ℕ) : List ℕ := List.insertionSort (· ≤ ·) l

/-- `np.unique`: the sorted list of distinct values. -/
def npUnique (l : List ℕ) : List ℕ := npSort l.dedup

theorem npSort_perm (l : List ℕ) : List.Perm (npSort l) l := List.perm_insertionSort _ l

theorem npSort_sorted (l : List ℕ) : List.Sorted (· ≤ ·) (npSort l) :=
  List.sorted_insertionSort _ l

theorem npSort_mem {l : List ℕ} {i : ℕ} : i ∈ npSort l ↔ i ∈ l :=
  (npSort_perm l).mem_iff

theorem npUnique_sorted (l : List ℕ) : List.Sorted (· < ·) (npUnique l) :=
  List.Sorted.lt_of_le (npSort_sorted l.dedup)
    ((npSort_perm l.dedup).nodup_iff.mpr l.nodup_dedup)

theorem npUnique_mem {l : List ℕ} {i : ℕ} : i ∈ npUnique l ↔ i ∈ l := by
  unfold npUnique
  rw [npSort_mem, List.mem_dedup]

theorem npSort_nodup {l : List ℕ} (h : l.Nodup) : (npSort l).Nodup :=
  (npSort_perm l).nodup_iff.mpr h

theorem npSort_chain {l : List ℕ} (h : l.Nodup) :
    List.Sorted (· < ·) (npSort l) :=
  List.Sorted.lt_of_le (npSort_sorted l) (npSort_nodup h)

example : npUnique [3, 1, 3, 0, 1] = [0, 1, 3] := by decide
example : fsub F.inf F.inf = F.nan := by decide
example : fmaximum F.nan (F.fin 1) = F.nan := by decide

/-!
## Peak detector — `src/zuy/spectrum/detect_peaks.py`, `detect_peaks`

The pipeline is split into one definition per source block; `detect_peaks`
composes them in source order.  Indices are natural numbers; numpy index
arithmetic that can go below zero (`indnan - 1`) uses truncated subtraction,
which is observationally identical here (the spurious `0` produced when
`0 ∈ indnan` is already in the invalid set).
-/

/-- Value of `x[i]` (indices produced by the pipeline are always in range;
the default is never reached on those). -/
def xAt (x : List F) (i : ℕ) : F := x.getD i F.nan

/-- `dx = np.diff(x)` (line 62). -/
def npDiff (x : List F) : List F := List.zipWith fsub x.tail x

/-- `indnan = np.where(np.isnan(x))[0]` (line 63). -/
def nanIdx (x : List F) : List ℕ :=
  (List.range x.length).filter (fun i => (xAt x i).isnan)

/-- `x[indnan] = np.inf` (line 66), applied only when `indnan.size` (line 65). -/
def xClean (x : List F) : List F :=
  if nanIdx x = [] then x else x.map (fun v => if v.isnan then F.inf else v)

/-- `dx[np.where(np.isnan(dx))[0]] = np.inf` (line 67), applied only when
`indnan.size` (line 65). -/
def dxClean (x : List F) : List F :=
  if nanIdx x = [] then npDiff x
  else (npDiff x).map (fun v => if v.isnan then F.inf else v)

/-- `np.hstack((dx, 0))[i]`: the difference to the right of `i`. -/
def rightDiff (x : List F) (i : ℕ) : F := (dxClean x).getD i (F.fin 0)

/-- `np.hstack((0, dx))[i]`: the difference to the left of `i`. -/
def leftDiff (x : List F) (i : ℕ) : F :=
  if i = 0 then F.fin 0 else (dxClean x).getD (i - 1) (F.fin 0)

/-- `ine` (line 76): strict local maxima, used when `edge is None`. -/
def edgeNone (x : List F) : List ℕ :=
  (List.range x.length).filter
    (fun i => flt (rightDiff x i) (F.fin 0) && fgt (leftDiff x i) (F.fin 0))

/-- `ire` (line 80): rising edges, used when `edge in ("rising", "both")`. -/
def edgeRising (x : List F) : List ℕ :=
  (List.range x.length).filter
    (fun i => fle (rightDiff x i) (F.fin 0) && fgt (leftDiff x i) (F.fin 0))

/-- `ife` (line 82): falling edges, used when `edge in ("falling", "both")`. -/
def edgeFalling (x : List F) : List ℕ :=
  (List.range x.length).filter
    (fun i => flt (rightDiff x i) (F.fin 0) && fge (leftDiff x i) (F.fin 0))

/-- ASCII lowercase of one character (kernel-reducible form of
`Char.toLower` for the ASCII inputs `edge.lower()` sees). -/
def pyLowerChar (c : Char) : Char :=
  if 65 ≤ c.toNat ∧ c.toNat ≤ 90 then Char.ofNat (c.toNat + 32) else c

/-- `edge.lower()` (line 78). -/
def pyLower (s : String) : String := String.mk (s.data.map pyLowerChar)

/-- `ind = np.unique(np.hstack((ine, ire, ife)))` with the `edge` dispatch of
lines 75-84. -/
def candRaw (x : List F) (edge : Option String) : List ℕ :=
  match edge with
  | none => npUnique (edgeNone x ++ [] ++ [])
  | some e =>
      let el := pyLower e
      npUnique ([]
        ++ (if el = "rising" ∨ el = "both" then edgeRising x else [])
        ++ (if el = "falling" ∨ el = "both" then edgeFalling x else []))

/-- Lines 86-88: drop candidates that are NaN positions or adjacent to one. -/
def invalidIdx (x : List F) : List ℕ :=
  npUnique (nanIdx x ++ (nanIdx x).map (· - 1) ++ (nanIdx x).map (· + 1))

def candValid (x : List F) (edge : Option String) : List ℕ :=
  if candRaw x edge ≠ [] ∧ nanIdx x ≠ [] then
    (candRaw x edge).filter (fun i => decide (i ∉ invalidIdx x))
  else candRaw x edge

/-- Lines 90-91: drop the first candidate if it is index 0. -/
def dropHeadZero (ind : List ℕ) : List ℕ :=
  if ind.head? = some 0 then ind.tail else ind

/-- Lines 92-93: drop the last candidate if it is the last index. -/
def dropLastEnd (n : ℕ) (ind : List ℕ) : List ℕ :=
  if ind.getLast? = some (n - 1) then ind.dropLast else ind

/-- Candidates after the boundary drops of lines 90-93. -/
def candInner (x : List F) (edge : Option String) : List ℕ :=
  dropLastEnd x.length (dropHeadZero (candValid x edge))

/-- Lines 95-96: minimum-peak-height filter `ind[x[ind] >= mph]`. -/
def candMph (x : List F) (edge : Option String) (mph : Option ℚ) : List ℕ :=
  match mph with
  | none => candInner x edge
  | some m => (candInner x edge).filter (fun i => fge (xAt (xClean x) i) (F.fin m))

/-- Lines 98-100: threshold filter.  `np.delete(ind, np.where(dmin < th))`
keeps exactly the candidates whose minimum drop is not below the threshold. -/
def candThr (x : List F) (edge : Option String) (mph : Option ℚ)
    (threshold : ℚ) : List ℕ :=
  if candMph x edge mph ≠ [] ∧ 0 < threshold then
    (candMph x edge mph).filter (fun i =>
      !(flt (fminimum (fsub (xAt (xClean x) i) (xAt (xClean x) (i - 1)))
              (fsub (xAt (xClean x) i) (xAt (xClean x) (i + 1))))
          (F.fin threshold)))
  else candMph x edge mph

/-- The comparison `j` lies within `mpd` samples (inclusive) of `i`
(`(ind >= ind[i] - mpd) & (ind <= ind[i] + mpd)`, line 108). -/
def inWindow (mpd : ℤ) (i j : ℕ) : Bool :=
  decide ((i : ℤ) - mpd ≤ (j : ℤ) ∧ (j : ℤ) ≤ (i : ℤ) + mpd)

/-- Ordering used by `np.argsort(x[ind])` restricted to this pipeline: sort
candidate indices by amplitude (numpy key order, NaN last), ties by original
position, i.e. a stable ascending argsort of the candidate array. -/
def ampLe (x2 : List F) (i j : ℕ) : Prop :=
  keyLt (xAt x2 i) (xAt x2 j) = true ∨
    (¬ keyLt (xAt x2 j) (xAt x2 i) = true ∧ i ≤ j)

instance (x2 : List F) : DecidableRel (ampLe x2) := fun i j => by
  unfold ampLe; infer_instance

/-- `ind[np.argsort(x[ind])[::-1]]` (line 103): candidates in descending
order of amplitude (ties: larger index first, from the reversed stable sort). -/
def sortByAmpDesc (x2 : List F) (ind : List ℕ) : List ℕ :=
  (List.insertionSort (ampLe x2) ind).reverse

/-- One step of the suppression loop of lines 106-114: if candidate `i` is not
yet deleted, delete every candidate in its window (all of them, or only the
strictly lower ones when `kpsh`), then undelete `i` itself. -/
def markStep (x2 : List F) (mpd : ℤ) (kpsh : Bool) (all : List ℕ)
    (removed : List ℕ) (i : ℕ) : List ℕ :=
  if i ∈ removed then removed
  else
    (removed ++ all.filter (fun j =>
        inWindow mpd i j
          && (if kpsh then fgt (xAt x2 i) (xAt x2 j) else true))).filter
      (fun j => j ≠ i)

/-- Lines 102-116: the full minimum-distance suppression block, as run by the
code when `ind.size` and `mpd > 1`. -/
def codeSuppress (x2 : List F) (mpd : ℤ) (kpsh : Bool) (ind : List ℕ) :
    List ℕ :=
  let desc := sortByAmpDesc x2 ind
  let removed := desc.foldl (markStep x2 mpd kpsh desc) []
  npSort (desc.filter (fun i => decide (i ∉ removed)))

/-- Post-filter stage of lines 102-116 with its guard. -/
def candMpd (x : List F) (edge : Option String) (mph : Option ℚ)
    (threshold : ℚ) (mpd : ℤ) (kpsh : Bool) : List ℕ :=
  if candThr x edge mph threshold ≠ [] ∧ 1 < mpd then
    codeSuppress (xClean x) mpd kpsh (candThr x edge mph threshold)
  else candThr x edge mph threshold

/-- `detect_peaks(x, mph, mpd, threshold, edge, kpsh, valley)`
(`show`/`ax` are presentation only and omitted).  Lines 55-125. -/
def detect_peaks (x : List F) (mph : Option ℚ) (mpd : ℤ) (threshold : ℚ)
    (edge : Option String) (kpsh : Bool) (valley : Bool) : List ℕ :=
  if x.length < 3 then []
  else candMpd (if valley then x.map fneg else x) edge mph threshold mpd kpsh

example :
    detect_peaks [F.fin 0, F.fin 0, F.fin 1, F.fin 0, F.fin 0]
      none 1 0 (some "rising") false false = [2] := by decide
example :
    detect_peaks [F.fin 0, F.fin 1, F.fin 1, F.fin 0]
      none 1 0 (some "both") false false = [1, 2] := by decide
example :
    detect_peaks [F.fin 0, F.inf, F.fin 0]
      none 1 0 (some "rising") false false = [1] := by decide
example :
    detect_peaks [F.fin 0, F.nan, F.fin 0, F.fin 0, F.fin 1, F.fin 0, F.fin 0]
      none 1 0 (some "rising") false false = [4] := by decide

/-!
## Spec-side minimum-distance enforcement (refinement reference for C1)

The definitions below follow the wording of spec step 7: "process remaining
candidates in descending order of amplitude; for each not-yet-removed
candidate, mark for removal all other candidates within `min_distance` samples
(inclusive) on either side — unless `keep_equal_height` is set, in which case
only strictly lower-amplitude neighbors within the window are removed"; the
result is "re-sorted ascending by index".  The spec asserts this for every
`min_distance >= 1`.
-/

/-- Spec wording: the "other candidates" marked for removal around a surviving
candidate `i`. -/
def specWindowRemovals (x2 : List F) (mpd : ℤ) (kpsh : Bool) (all : List ℕ)
    (i : ℕ) : List ℕ :=
  all.filter (fun j => (decide (j ≠ i)) && (inWindow mpd i j
    && (if kpsh then fgt (xAt x2 i) (xAt x2 j) else true)))

/-- Spec wording: sweep the candidates in the given (descending-amplitude)
order, skipping candidates already marked, accumulating the removal set. -/
def specSweep (x2 : List F) (mpd : ℤ) (kpsh : Bool) (all : List ℕ) :
    List ℕ → List ℕ → List ℕ
  | [], removed => removed
  | i :: rest, removed =>
      if i ∈ removed then specSweep x2 mpd kpsh all rest removed
      else specSweep x2 mpd kpsh all rest
        (removed ++ specWindowRemovals x2 mpd kpsh all i)

/-- Spec wording of step 7: survivors of the greedy
highest-amplitude-first suppression, re-sorted ascending. -/
def specMinDistance (x2 : List F) (mpd : ℤ) (kpsh : Bool) (cands : List ℕ) :
    List ℕ :=
  let desc := sortByAmpDesc x2 cands
  npSort (desc.filter (fun i => decide (i ∉ specSweep x2 mpd kpsh desc desc [])))

/-- The detector as the spec describes it: identical pipeline, but with
minimum-distance enforcement applied for every `min_distance ≥ 1` (the code
only runs it for `mpd > 1`). -/
def specDetect (x : List F) (mph : Option ℚ) (mpd : ℤ) (threshold : ℚ)
    (edge : Option String) (kpsh : Bool) (valley : Bool) : List ℕ :=
  if x.length < 3 then []
  else
    let xv := if valley then x.map fneg else x
    let ind := candThr xv edge mph threshold
    if 1 ≤ mpd then specMinDistance (xClean xv) mpd kpsh ind else ind

theorem sweep_mem_eq (x2 : List F) (mpd : ℤ) (kpsh : Bool) (all : List ℕ)
    (process : List ℕ) :
    ∀ (r₁ r₂ : List ℕ), (∀ j, j ∈ r₁ ↔ j ∈ r₂) →
      ∀ j, (j ∈ process.foldl (markStep x2 mpd kpsh all) r₁ ↔
        j ∈ specSweep x2 mpd kpsh all process r₂) := by
  induction process with
  | nil => intro r₁ r₂ h j; simpa [specSweep] using h j
  | cons i rest ih =>
    intro r₁ r₂ h j
    rw [List.foldl_cons]
    by_cases hi : i ∈ r₁
    · rw [markStep, if_pos hi, specSweep, if_pos ((h i).mp hi)]
      exact ih r₁ r₂ h j
    · rw [markStep, if_neg hi, specSweep, if_neg (fun hh => hi ((h i).mpr hh))]
      apply ih
      intro k
      by_cases hk : k = i
      · subst hk
        simp only [List.mem_filter, List.mem_append, specWindowRemovals,
          decide_eq_true_eq, Bool.and_eq_true]
        constructor
        · rintro ⟨-, hne⟩; exact absurd rfl hne
        · rintro (hk2 | ⟨-, ⟨hne, -⟩⟩)
          · exact absurd ((h k).mpr hk2) hi
          · exact absurd rfl hne
      · simp only [List.mem_filter, List.mem_append, specWindowRemovals,
          decide_eq_true_eq, Bool.and_eq_true, h k]
        constructor
        · rintro ⟨(hk2 | ⟨ha, hp⟩), -⟩
          · exact Or.inl hk2
          · exact Or.inr ⟨ha, hk, hp⟩
        · rintro (hk2 | ⟨ha, -, hp⟩)
          · exact ⟨Or.inl hk2, hk⟩
          · exact ⟨Or.inr ⟨ha, hp⟩, hk⟩

theorem codeSuppress_eq_spec (x2 : List F) (mpd : ℤ) (kpsh : Bool)
    (ind : List ℕ) :
    codeSuppress x2 mpd kpsh ind = specMinDistance x2 mpd kpsh ind := by
  unfold codeSuppress specMinDistance
  dsimp only
  congr 1
  apply List.filter_congr
  intro i _
  have h := sweep_mem_eq x2 mpd kpsh (sortByAmpDesc x2 ind)
    (sortByAmpDesc x2 ind) [] [] (fun j => Iff.rfl) i
  exact decide_eq_decide.mpr (not_congr h)

theorem detect_eq_spec (x : List F) (mph : Option ℚ) (mpd : ℤ) (threshold : ℚ)
    (edge : Option String) (kpsh valley : Bool) (h : 1 < mpd) :
    detect_peaks x mph mpd threshold edge kpsh valley =
      specDetect x mph mpd threshold edge kpsh valley := by
  unfold detect_peaks specDetect candMpd
  by_cases h3 : x.length < 3
  · simp [h3]
  · simp only [if_neg h3, if_pos (le_of_lt h)]
    by_cases hi : candThr (if valley then x.map fneg else x) edge mph threshold = []
    · rw [hi]
      simp [specMinDistance, sortByAmpDesc, npSort]
    · rw [if_pos ⟨hi, h⟩, codeSuppress_eq_spec]

/-- A signal of length 20 that is zero except for two equal unit impulses at
positions 10 and 12 (the concrete scenario named by the spec). -/
def impulses1012 : List F :=
  List.map (fun i => if i = 10 ∨ i = 12 then F.fin 1 else F.fin 0)
    (List.range 20)

example : detect_peaks impulses1012 none 5 0 (some "rising") false false
    = [12] := by decide
example : detect_peaks impulses1012 none 1 0 (some "rising") false false
    = [10, 12] := by decide

/-- C2: for every signal and every other parameter setting, running the
detector on the negated signal with `valley = False` returns exactly the
indices of running it on the signal itself with `valley = True`
(lines 59-60 negate the input and nothing else depends on `valley`). -/
theorem c2_valley_symmetry (x : List F) (mph : Option ℚ) (mpd : ℤ)
    (threshold : ℚ) (edge : Option String) (kpsh : Bool) :
    detect_peaks (x.map fneg) mph mpd threshold edge kpsh false =
      detect_peaks x mph mpd threshold edge kpsh true := by
  unfold detect_peaks
  simp [List.length_map]

/-- C1 counterexample: the claim asserts the minimum-distance suppression is
enforced for every `min_distance ≥ 1`, but the code runs it only when
`mpd > 1` (line 102).  For the flat-topped peak `[0, 1, 1, 0]` with
`edge="both"` and `mpd = 1`, the two adjacent equal-height candidates 1 and 2
are both returned, while the spec's procedure would suppress one of them. -/
theorem c1_counterexample :
    detect_peaks [F.fin 0, F.fin 1, F.fin 1, F.fin 0] none 1 0 (some "both")
        false false = [1, 2] ∧
      specDetect [F.fin 0, F.fin 1, F.fin 1, F.fin 0] none 1 0 (some "both")
        false false = [2] ∧
      detect_peaks [F.fin 0, F.fin 1, F.fin 1, F.fin 0] none 1 0 (some "both")
          false false ≠
        specDetect [F.fin 0, F.fin 1, F.fin 1, F.fin 0] none 1 0 (some "both")
          false false := by
  refine ⟨by decide, by decide, ?_⟩
  decide

/-- C1 (amended): for every signal and every `min_distance > 1` the detector
performs exactly the spec's greedy highest-amplitude-first suppression
(descending amplitude, inclusive window, `keep_equal_height` sparing equal
ties, result re-sorted ascending); for `min_distance = 1` the suppression
stage is skipped entirely.  The spec's concrete scenario holds: two
equal-height impulses at positions 10 and 12 leave exactly one survivor under
`min_distance = 5` and both survive under `min_distance = 1`. -/
theorem c1_min_distance_suppression (x : List F) (mph : Option ℚ) (mpd : ℤ)
    (threshold : ℚ) (edge : Option String) (kpsh valley : Bool)
    (h : 1 < mpd) :
    detect_peaks x mph mpd threshold edge kpsh valley =
        specDetect x mph mpd threshold edge kpsh valley ∧
      detect_peaks impulses1012 none 5 0 (some "rising") false false = [12] ∧
      detect_peaks impulses1012 none 1 0 (some "rising") false false
        = [10, 12] :=
  ⟨detect_eq_spec x mph mpd threshold edge kpsh valley h, by decide, by decide⟩

/-- Witness for `c1_min_distance_suppression` at a concrete input. -/
theorem c1_min_distance_suppression_witness :
    detect_peaks [F.fin 0, F.fin 1, F.fin 1, F.fin 0] none 2 0 (some "both")
        false false =
        specDetect [F.fin 0, F.fin 1, F.fin 1, F.fin 0] none 2 0 (some "both")
          false false ∧
      detect_peaks impulses1012 none 5 0 (some "rising") false false = [12] ∧
      detect_peaks impulses1012 none 1 0 (some "rising") false false
        = [10, 12] :=
  c1_min_distance_suppression [F.fin 0, F.fin 1, F.fin 1, F.fin 0] none 2 0
    (some "both") false false (by decide)

/-!
## Structural invariants of the detector pipeline (for C8 and C9)
-/

theorem edgeNone_lt {x : List F} {i : ℕ} (h : i ∈ edgeNone x) : i < x.length :=
  List.mem_range.mp (List.mem_filter.mp h).1

theorem edgeRising_lt {x : List F} {i : ℕ} (h : i ∈ edgeRising x) :
    i < x.length :=
  List.mem_range.mp (List.mem_filter.mp h).1

theorem edgeFalling_lt {x : List F} {i : ℕ} (h : i ∈ edgeFalling x) :
    i < x.length :=
  List.mem_range.mp (List.mem_filter.mp h).1

theorem candRaw_sorted (x : List F) (edge : Option String) :
    List.Sorted (· < ·) (candRaw x edge) := by
  cases edge with
  | none => exact npUnique_sorted _
  | some e => exact npUnique_sorted _

theorem candRaw_lt {x : List F} {edge : Option String} {i : ℕ}
    (h : i ∈ candRaw x edge) : i < x.length := by
  cases edge with
  | none =>
    rw [candRaw, npUnique_mem] at h
    simp only [List.append_nil] at h
    exact edgeNone_lt h
  | some e =>
    rw [candRaw, npUnique_mem] at h
    simp only [List.nil_append, List.mem_append] at h
    rcases h with h | h <;> split_ifs at h
    · exact edgeRising_lt h
    · exact absurd h (List.not_mem_nil i)
    · exact edgeFalling_lt h
    · exact absurd h (List.not_mem_nil i)

theorem candValid_subset {x : List F} {edge : Option String} {i : ℕ}
    (h : i ∈ candValid x edge) : i ∈ candRaw x edge := by
  rw [candValid] at h
  split_ifs at h
  · exact (List.mem_filter.mp h).1
  · exact h

theorem candValid_sorted (x : List F) (edge : Option String) :
    List.Sorted (· < ·) (candValid x edge) := by
  rw [candValid]
  split_ifs
  · exact (candRaw_sorted x edge).filter _
  · exact candRaw_sorted x edge

theorem dropHeadZero_subset {l : List ℕ} {i : ℕ} (h : i ∈ dropHeadZero l) :
    i ∈ l := by
  rw [dropHeadZero] at h
  split_ifs at h
  · exact (List.tail_sublist l).subset h
  · exact h

theorem dropHeadZero_sorted {l : List ℕ} (hs : List.Sorted (· < ·) l) :
    List.Sorted (· < ·) (dropHeadZero l) := by
  rw [dropHeadZero]
  split_ifs
  · exact hs.sublist (List.tail_sublist l)
  · exact hs

theorem not_mem_dropHeadZero {l : List ℕ} (hs : List.Sorted (· < ·) l) :
    0 ∉ dropHeadZero l := by
  rw [dropHeadZero]
  split_ifs with hh
  · cases l with
    | nil => exact List.not_mem_nil 0
    | cons a t =>
      intro h0
      have ha : a = 0 := by simpa using hh
      subst ha
      exact Nat.lt_irrefl 0 (List.rel_of_sorted_cons hs 0 h0)
  · cases l with
    | nil => exact List.not_mem_nil 0
    | cons a t =>
      intro h0
      rcases List.mem_cons.mp h0 with h0 | h0
      · exact hh (by simp [← h0])
      · exact Nat.not_lt_zero a (List.rel_of_sorted_cons hs 0 h0)

theorem dropLastEnd_subset {n : ℕ} {l : List ℕ} {i : ℕ}
    (h : i ∈ dropLastEnd n l) : i ∈ l := by
  rw [dropLastEnd] at h
  split_ifs at h
  · exact (List.dropLast_sublist l).subset h
  · exact h

theorem dropLastEnd_sorted {n : ℕ} {l : List ℕ}
    (hs : List.Sorted (· < ·) l) : List.Sorted (· < ·) (dropLastEnd n l) := by
  rw [dropLastEnd]
  split_ifs
  · exact hs.sublist (List.dropLast_sublist l)
  · exact hs

theorem sorted_getLast_max : ∀ (l : List ℕ), List.Sorted (· < ·) l →
    ∀ m, m ∈ l → (∀ i ∈ l, i ≤ m) → l.getLast? = some m
  | [], _, m, hm, _ => absurd hm (List.not_mem_nil m)
  | [a], _, m, hm, _ => by
      simp only [List.mem_singleton] at hm
      simp [hm]
  | a :: b :: t, h, m, hm, hmax => by
      have hab : a < b := List.rel_of_sorted_cons h b (by simp)
      have hm' : m ∈ b :: t := by
        rcases List.mem_cons.mp hm with rfl | hm'
        · exact absurd (hmax b (by simp)) (by omega)
        · exact hm'
      rw [List.getLast?_cons_cons]
      exact sorted_getLast_max (b :: t) h.of_cons m hm'
        (fun i hi => hmax i (List.mem_cons_of_mem a hi))

theorem not_mem_dropLastEnd {n : ℕ} {l : List ℕ}
    (hs : List.Sorted (· < ·) l) (hlt : ∀ i ∈ l, i < n) :
    n - 1 ∉ dropLastEnd n l := by
  rw [dropLastEnd]
  split_ifs with hg
  · intro hmem
    have hne : l ≠ [] := by
      intro he
      subst he
      exact absurd hmem (List.not_mem_nil _)
    have hlast : l.getLast hne = n - 1 := by
      have := List.getLast?_eq_getLast l hne
      rw [this] at hg
      exact Option.some_injective _ hg
    have hdecomp : l.dropLast ++ [l.getLast hne] = l :=
      List.dropLast_append_getLast hne
    have hpw : List.Pairwise (· < ·) (l.dropLast ++ [l.getLast hne]) := by
      rw [hdecomp]; exact hs
    have := (List.pairwise_append.mp hpw).2.2 (n - 1) hmem (l.getLast hne)
      (by simp)
    rw [hlast] at this
    exact Nat.lt_irrefl _ this
  · intro hmem
    exact hg (sorted_getLast_max l hs (n - 1) hmem
      (fun i hi => Nat.le_sub_one_of_lt (hlt i hi)))

theorem candInner_sorted (x : List F) (edge : Option String) :
    List.Sorted (· < ·) (candInner x edge) :=
  dropLastEnd_sorted (dropHeadZero_sorted (candValid_sorted x edge))

theorem candInner_bounds {x : List F} {edge : Option String} {i : ℕ}
    (h : i ∈ candInner x edge) : 1 ≤ i ∧ i + 2 ≤ x.length := by
  have hv : i ∈ candValid x edge :=
    dropHeadZero_subset (dropLastEnd_subset h)
  have hn : i < x.length := candRaw_lt (candValid_subset hv)
  have h0 : i ≠ 0 := by
    intro he
    subst he
    exact not_mem_dropHeadZero (candValid_sorted x edge)
      (dropLastEnd_subset h)
  have hl : i ≠ x.length - 1 := by
    intro he
    subst he
    exact not_mem_dropLastEnd (dropHeadZero_sorted (candValid_sorted x edge))
      (fun k hk => candRaw_lt (candValid_subset (dropHeadZero_subset hk))) h
  omega

theorem candMph_subset {x : List F} {edge : Option String} {mph : Option ℚ}
    {i : ℕ} (h : i ∈ candMph x edge mph) : i ∈ candInner x edge := by
  cases mph with
  | none => exact h
  | some m => exact (List.mem_filter.mp h).1

theorem candMph_sorted (x : List F) (edge : Option String) (mph : Option ℚ) :
    List.Sorted (· < ·) (candMph x edge mph) := by
  cases mph with
  | none => exact candInner_sorted x edge
  | some m => exact (candInner_sorted x edge).filter _

theorem candThr_subset {x : List F} {edge : Option String} {mph : Option ℚ}
    {threshold : ℚ} {i : ℕ} (h : i ∈ candThr x edge mph threshold) :
    i ∈ candMph x edge mph := by
  rw [candThr] at h
  split_ifs at h
  · exact (List.mem_filter.mp h).1
  · exact h

theorem candThr_sorted (x : List F) (edge : Option String) (mph : Option ℚ)
    (threshold : ℚ) :
    List.Sorted (· < ·) (candThr x edge mph threshold) := by
  rw [candThr]
  split_ifs
  · exact (candMph_sorted x edge mph).filter _
  · exact candMph_sorted x edge mph

theorem codeSuppress_subset {x2 : List F} {mpd : ℤ} {kpsh : Bool}
    {ind : List ℕ} {i : ℕ} (h : i ∈ codeSuppress x2 mpd kpsh ind) :
    i ∈ ind := by
  rw [codeSuppress] at h
  rw [npSort_mem] at h
  have h1 : i ∈ sortByAmpDesc x2 ind := (List.mem_filter.mp h).1
  rw [sortByAmpDesc, List.mem_reverse] at h1
  exact (List.perm_insertionSort (ampLe x2) ind).subset h1

theorem codeSuppress_sorted (x2 : List F) (mpd : ℤ) (kpsh : Bool)
    {ind : List ℕ} (hnd : ind.Nodup) :
    List.Sorted (· < ·) (codeSuppress x2 mpd kpsh ind) := by
  rw [codeSuppress]
  apply npSort_chain
  apply List.Nodup.filter
  rw [sortByAmpDesc]
  exact (List.nodup_reverse).mpr
    ((List.perm_insertionSort (ampLe x2) ind).nodup_iff.mpr hnd)

theorem detect_peaks_mem {x : List F} {mph : Option ℚ} {mpd : ℤ}
    {threshold : ℚ} {edge : Option String} {kpsh valley : Bool} {i : ℕ}
    (h : i ∈ detect_peaks x mph mpd threshold edge kpsh valley) :
    i ∈ candThr (if valley then x.map fneg else x) edge mph threshold := by
  rw [detect_peaks] at h
  set xv := if valley then x.map fneg else x with hxv
  by_cases h3 : x.length < 3
  · rw [if_pos h3] at h
    exact absurd h (List.not_mem_nil i)
  · rw [if_neg h3, candMpd] at h
    split_ifs at h with hc
    · exact codeSuppress_subset h
    · exact h

theorem detect_peaks_sorted (x : List F) (mph : Option ℚ) (mpd : ℤ)
    (threshold : ℚ) (edge : Option String) (kpsh valley : Bool) :
    List.Sorted (· < ·) (detect_peaks x mph mpd threshold edge kpsh valley) := by
  rw [detect_peaks]
  set xv := if valley then x.map fneg else x with hxv
  by_cases h3 : x.length < 3
  · rw [if_pos h3]
    exact List.sorted_nil
  · rw [if_neg h3, candMpd]
    split_ifs with hc
    · exact codeSuppress_sorted _ _ _
        ((candThr_sorted xv edge mph threshold).imp (fun h => Nat.ne_of_lt h))
    · exact candThr_sorted xv edge mph threshold

theorem detect_peaks_bounds {x : List F} {mph : Option ℚ} {mpd : ℤ}
    {threshold : ℚ} {edge : Option String} {kpsh valley : Bool} {i : ℕ}
    (h : i ∈ detect_peaks x mph mpd threshold edge kpsh valley) :
    1 ≤ i ∧ i + 2 ≤ x.length := by
  have h1 := candMph_subset (candThr_subset (detect_peaks_mem h))
  have h2 := candInner_bounds h1
  have h3 : (if valley then x.map fneg else x).length = x.length := by
    split_ifs <;> simp
  rwa [h3] at h2

/-- C9: for every input and every parameter setting, `detect_peaks` returns a
strictly increasing sequence of indices, each strictly between `0` and
`len(signal) - 1` (so the first and last sample never appear), and any input
of length `< 3` yields the empty sequence (line 56). -/
theorem c9_output_invariants (x : List F) (mph : Option ℚ) (mpd : ℤ)
    (threshold : ℚ) (edge : Option String) (kpsh valley : Bool) :
    List.Sorted (· < ·) (detect_peaks x mph mpd threshold edge kpsh valley) ∧
      (∀ i ∈ detect_peaks x mph mpd threshold edge kpsh valley,
        1 ≤ i ∧ i + 2 ≤ x.length) ∧
      (x.length < 3 →
        detect_peaks x mph mpd threshold edge kpsh valley = []) :=
  ⟨detect_peaks_sorted x mph mpd threshold edge kpsh valley,
   fun _ hi => detect_peaks_bounds hi,
   fun h3 => by rw [detect_peaks, if_pos h3]⟩

theorem mem_nanIdx {x : List F} {j : ℕ} :
    j ∈ nanIdx x ↔ j < x.length ∧ (xAt x j).isnan = true := by
  rw [nanIdx, List.mem_filter, List.mem_range]

theorem fneg_isnan (v : F) : (fneg v).isnan = v.isnan := by
  cases v <;> rfl

theorem xAt_map_fneg {x : List F} {j : ℕ} (h : j < x.length) :
    xAt (x.map fneg) j = fneg (xAt x j) := by
  rw [xAt, xAt, List.getD_eq_getElem _ _ (by simpa using h),
    List.getD_eq_getElem _ _ h, List.getElem_map]

theorem mem_invalidIdx_self {x : List F} {j : ℕ} (hj : j ∈ nanIdx x) :
    j ∈ invalidIdx x := by
  rw [invalidIdx, npUnique_mem]
  simp only [List.mem_append]
  exact Or.inl (Or.inl hj)

theorem mem_invalidIdx_pred {x : List F} {j : ℕ} (hj : j ∈ nanIdx x) :
    j - 1 ∈ invalidIdx x := by
  rw [invalidIdx, npUnique_mem]
  simp only [List.mem_append, List.mem_map]
  exact Or.inl (Or.inr ⟨j, hj, rfl⟩)

theorem mem_invalidIdx_succ {x : List F} {j : ℕ} (hj : j ∈ nanIdx x) :
    j + 1 ∈ invalidIdx x := by
  rw [invalidIdx, npUnique_mem]
  simp only [List.mem_append, List.mem_map]
  exact Or.inr ⟨j, hj, rfl⟩

theorem candValid_not_invalid {x : List F} {edge : Option String} {i : ℕ}
    (hnan : nanIdx x ≠ []) (h : i ∈ candValid x edge) : i ∉ invalidIdx x := by
  rw [candValid] at h
  split_ifs at h with hc
  · have := (List.mem_filter.mp h).2
    simpa using this
  · have hA : candRaw x edge = [] := by
      by_contra hA
      exact hc ⟨hA, hnan⟩
    rw [hA] at h
    exact absurd h (List.not_mem_nil i)

/-- C8 counterexample: the claim says a position holding any non-finite value
never registers as a peak, but only NaN positions are tracked (line 63);
`+inf` is not NaN, and the signal `[0, inf, 0]` returns index 1, whose value
is non-finite. -/
theorem c8_counterexample :
    detect_peaks [F.fin 0, F.inf, F.fin 0] none 1 0 (some "rising") false false
        = [1] ∧
      (xAt [F.fin 0, F.inf, F.fin 0] 1).isFinite = false := by
  refine ⟨by decide, by decide⟩

/-- C8 (amended): positions holding NaN (not arbitrary non-finite values)
never register: no returned index is a NaN position or directly adjacent to
one (lines 62-67 and 86-88 exclude NaN positions and their neighbors; `±inf`
positions are not excluded and can be returned). -/
theorem c8_nan_exclusion (x : List F) (mph : Option ℚ) (mpd : ℤ)
    (threshold : ℚ) (edge : Option String) (kpsh valley : Bool) (i j : ℕ)
    (hjl : j < x.length) (hj : (xAt x j).isnan = true)
    (hi : i ∈ detect_peaks x mph mpd threshold edge kpsh valley) :
    i ≠ j ∧ i ≠ j + 1 ∧ j ≠ i + 1 := by
  set xv := if valley then x.map fneg else x with hxv
  have hlen : xv.length = x.length := by
    rw [hxv]; split_ifs <;> simp
  have hjv : (xAt xv j).isnan = true := by
    rw [hxv]
    split_ifs
    · rw [xAt_map_fneg hjl, fneg_isnan]
      exact hj
    · exact hj
  have hjn : j ∈ nanIdx xv := mem_nanIdx.mpr ⟨by rwa [hlen], hjv⟩
  have hnan : nanIdx xv ≠ [] := List.ne_nil_of_mem hjn
  have hcv : i ∈ candValid xv edge :=
    dropHeadZero_subset (dropLastEnd_subset
      (candMph_subset (candThr_subset (detect_peaks_mem hi))))
  have hninv : i ∉ invalidIdx xv := candValid_not_invalid hnan hcv
  refine ⟨?_, ?_, ?_⟩
  · intro he
    subst he
    exact hninv (mem_invalidIdx_self hjn)
  · intro he
    subst he
    exact hninv (mem_invalidIdx_succ hjn)
  · intro he
    have : i = j - 1 := by omega
    subst this
    exact hninv (mem_invalidIdx_pred hjn)

/-- Witness for `c8_nan_exclusion` at a concrete input: the signal
`[0, NaN, 0, 0, 1, 0, 0]` returns index 4, which is neither the NaN position 1
nor adjacent to it. -/
theorem c8_nan_exclusion_witness :
    (4 : ℕ) ≠ 1 ∧ (4 : ℕ) ≠ 2 ∧ (1 : ℕ) ≠ 5 :=
  c8_nan_exclusion
    [F.fin 0, F.nan, F.fin 0, F.fin 0, F.fin 1, F.fin 0, F.fin 0]
    none 1 0 (some "rising") false false 4 1 (by decide) (by decide)
    (by decide)

/-!
## Baseline correction — `src/zuy/spectrum/baseline.py`

The sparse linear solver `sp.sparse.linalg.spsolve` and the transcendental
kernels `np.exp` / the square root inside `np.std` and `np.linalg.norm` are
not rational-valued; they are taken as explicit function parameters.
Everything else (penalty operators, weight updates, residuals, loop and
error-handling structure) is translated concretely.  Errors are modelled as
`Except.error` carrying the Python exception rendering.
-/

/-- A dense matrix with explicit shape, as produced by the scipy sparse
constructors (entries outside `rows × cols` are irrelevant). -/
structure NpMat where
  rows : ℕ
  cols : ℕ
  entry : ℕ → ℕ → ℚ

/-- `D = sp.sparse.diags([1, -2, 1], [0, -1, -2], shape=(L, L - 2))`
(baseline.py line 19): offsets 0, -1, -2 put `1, -2, 1` down the columns. -/
def classicD (L : ℕ) : NpMat :=
  ⟨L, L - 2, fun i j =>
    if i = j then 1 else if i = j + 1 then -2 else if i = j + 2 then 1 else 0⟩

/-- `D = sp.sparse.spdiags([diag, -2 * diag, diag], [0, -1, -2], L, L - 2)`
(lines 77-78), `diag = np.ones(L - 2)`: the same second-difference operator. -/
def arplsD (L : ℕ) : NpMat :=
  ⟨L, L - 2, fun i j =>
    if i = j then 1 else if i = j + 1 then -2 else if i = j + 2 then 1 else 0⟩

/-- `sp.sparse.eye(N)` (line 108). -/
def npEye (N : ℕ) : NpMat := ⟨N, N, fun i j => if i = j then 1 else 0⟩

/-- `D = D[1:] - D[:-1]` applied to the N×N identity (line 109): row `i` of
the result is row `i+1` minus row `i`, giving an (N-1)×N first-difference
operator — not the L×(L-2) second-difference operator of the other variants. -/
def choleskyD (N : ℕ) : NpMat :=
  ⟨N - 1, N, fun i j => qadd ((npEye N).entry (i + 1) j) (-(npEye N).entry i j)⟩

/-- Matrix transpose (`D.T`). -/
def matTrans (A : NpMat) : NpMat := ⟨A.cols, A.rows, fun i j => A.entry j i⟩

/-- Matrix product (`@`). -/
def matMul (A B : NpMat) : NpMat :=
  ⟨A.rows, B.cols, fun i j =>
    (List.range A.cols).foldl (fun s k => qadd s (qmul (A.entry i k) (B.entry k j))) 0⟩

/-- Scalar multiple (`lam * M`). -/
def matScale (c : ℚ) (A : NpMat) : NpMat :=
  ⟨A.rows, A.cols, fun i j => qmul c (A.entry i j)⟩

/-- Matrix sum. -/
def matAdd (A B : NpMat) : NpMat :=
  ⟨A.rows, A.cols, fun i j => qadd (A.entry i j) (B.entry i j)⟩

/-- `W = sp.sparse.spdiags(w, 0, L, L)` (line 23). -/
def diagMat (w : List ℚ) : NpMat :=
  ⟨w.length, w.length, fun i j => if i = j then w.getD i 0 else 0⟩

/-- `Z = W + lam * D @ D.T` (line 24). -/
def classicSystem (w : List ℚ) (lam : ℚ) (L : ℕ) : NpMat :=
  matAdd (diagMat w) (matScale lam (matMul (classicD L) (matTrans (classicD L))))

/-- Kernel-reducible rational subtraction. -/
def qsub (a b : ℚ) : ℚ := qadd a (-b)

theorem qsub_eq (a b : ℚ) : qsub a b = a - b := by
  rw [qsub, qadd_eq]
  ring

/-- One sample of the asymmetric weight update
`w = p * (y > z) + (1 - p) * (y < z)` (line 26): boolean comparisons become
0/1 and are scaled by `p` and `1 - p`. -/
def classicWeight (p : ℚ) (yi zi : F) : ℚ :=
  qadd (qmul p (if fgt yi zi then 1 else 0))
    (qmul (qsub 1 p) (if flt yi zi then 1 else 0))

/-- `w * y` / `W @ y`: the right-hand side of each solve (lines 25, 85). -/
def weightedRhs (w : List ℚ) (y : List F) : List F :=
  List.zipWith (fun wi yi => fmul (F.fin wi) yi) w y

/-- The `for` loop of lines 22-26.  `solve` stands for
`sp.sparse.linalg.spsolve`; `z` is `none` before the first assignment,
mirroring Python's unbound local. -/
def classicLoop (solve : NpMat → List F → List F) (y : List F) (lam p : ℚ) :
    ℕ → List ℚ → Option (List F) → Option (List F)
  | 0, _, z => z
  | k + 1, w, _ =>
      classicLoop solve y lam p k
        (List.zipWith (fun yi zi => classicWeight p yi zi) y
          (solve (classicSystem w lam y.length) (weightedRhs w y)))
        (some (solve (classicSystem w lam y.length) (weightedRhs w y)))

/-- The value of `z` after the loop of `baseline_subtract_classic`, starting
from `w = np.ones(L)` (line 20). -/
def classicZ (solve : NpMat → List F → List F) (y : List F) (lam p : ℚ)
    (niter : ℕ) : Option (List F) :=
  classicLoop solve y lam p niter (List.replicate y.length 1) none

/-- `baseline_subtract_classic(y, niter, lam, p)` (lines 11-32): guard on
`niter`, run the loop, return `corr = y - z` unless it is NaN everywhere. -/
def baseline_subtract_classic (solve : NpMat → List F → List F) (y : List F)
    (niter : ℤ) (lam p : ℚ) : Except String (List F) :=
  if niter < 1 then Except.error "ValueError: niter must be >= 1"
  else
    match classicZ solve y lam p niter.toNat with
    | none =>
        Except.error "UnboundLocalError: local variable z referenced before assignment"
    | some z =>
        if (fsubList y z).all isnan then
          Except.error "ValueError: baseline correction failed"
        else Except.ok (fsubList y z)

/-- `dn = d[d < 0]` (lines 87, 121): the negative residuals. -/
def negResiduals (d : List F) : List F := d.filter (fun v => flt v (F.fin 0))

/-- `np.mean` (the mean of an empty array is NaN, via `0/0`). -/
def fmean (l : List F) : F :=
  fdiv (l.foldl fadd (F.fin 0)) (F.fin (l.length : ℚ))

/-- `np.std` (population standard deviation) with an abstract square root. -/
def fstd (fsqrt : F → F) (l : List F) : F :=
  fsqrt (fmean (l.map (fun v => fmul (fsub v (fmean l)) (fsub v (fmean l)))))

/-- The arPLS weight update of lines 86-89 and 120-123:
`w_new = 1 / (1 + exp(2 * (d - (2*s - m)) / s))` where `m`, `s` are the mean
and standard deviation of the negative residuals.  `fexp` stands for
`np.exp`. -/
def arplsWeight (fexp fsqrt : F → F) (d : List F) : List F :=
  d.map (fun di =>
    fdiv (F.fin 1) (fadd (F.fin 1) (fexp (fdiv
      (fmul (F.fin 2) (fsub di
        (fsub (fmul (F.fin 2) (fstd fsqrt (negResiduals d)))
          (fmean (negResiduals d)))))
      (fstd fsqrt (negResiduals d))))))

/-- Sum of squares (the inside of `np.linalg.norm`). -/
def sumSq (l : List F) : F := l.foldl (fun s v => fadd s (fmul v v)) (F.fin 0)

/-- `np.linalg.norm(wNew - w) / np.linalg.norm(w)` (line 90). -/
def relChange (fsqrt : F → F) (wNew w : List F) : F :=
  fdiv (fsqrt (sumSq (fsubList wNew w))) (fsqrt (sumSq w))

/-- One solve of the arPLS body: `z = spsolve(W + H, W @ y)` (line 85);
`solve lam w rhs` stands for `spsolve` on the system assembled from `lam`
and the current weights. -/
def arplsZ (solve : ℚ → List F → List F → List F) (y : List F) (lam : ℚ)
    (w : List F) : List F :=
  solve lam w (List.zipWith fmul w y)

/-- The updated weight vector `w_new` of one arPLS iteration (lines 86-89). -/
def arplsNext (solve : ℚ → List F → List F → List F) (fexp fsqrt : F → F)
    (y : List F) (lam : ℚ) (w : List F) : List F :=
  arplsWeight fexp fsqrt (fsubList y (arplsZ solve y lam w))

/-- `crit = norm(w_new - w) / norm(w)` of one arPLS iteration (line 90). -/
def arplsCrit (solve : ℚ → List F → List F → List F) (fexp fsqrt : F → F)
    (y : List F) (lam : ℚ) (w : List F) : F :=
  relChange fsqrt (arplsNext solve fexp fsqrt y lam w) w

/-- The `for`/`else` loop of lines 84-97.  Returns the final `z` (or `none`
if the body never ran) and whether the "Max iterations exceeded" message was
printed.  The weight update happens before the convergence test
(lines 91-95), and `break` stops with the current `z` and no warning. -/
def arplsLoop (solve : ℚ → List F → List F → List F) (fexp fsqrt : F → F)
    (y : List F) (lam ratio : ℚ) :
    ℕ → List F → Option (List F) → Option (List F) × Bool
  | 0, _, z => (z, true)
  | k + 1, w, _ =>
      if flt (arplsCrit solve fexp fsqrt y lam w) (F.fin ratio) then
        (some (arplsZ solve y lam w), false)
      else
        arplsLoop solve fexp fsqrt y lam ratio k
          (arplsNext solve fexp fsqrt y lam w) (some (arplsZ solve y lam w))

/-- `baseline_subtract_arpls(y, lam, ratio, niter)` (lines 35-99): guard on
`niter`, run the loop from `w = np.ones(L)`, return the baseline `z` itself
(not `y - z`) together with the warning flag. -/
def baseline_subtract_arpls (solve : ℚ → List F → List F → List F)
    (fexp fsqrt : F → F) (y : List F) (lam ratio : ℚ) (niter : ℤ) :
    Except String (List F × Bool) :=
  if niter < 1 then Except.error "ValueError: niter must be >= 1"
  else
    match arplsLoop solve fexp fsqrt y lam ratio niter.toNat
        (List.replicate y.length 1) none with
    | (some z, warned) => Except.ok (z, warned)
    | (none, _) =>
        Except.error "UnboundLocalError: local variable z referenced before assignment"

/-- The loop of lines 113-126.  Here the convergence test
`norm(w - w_new)/norm(w) < ratio` happens *before* `w = w_new`; `solve`
stands for the Cholesky factorization plus the two triangular solves
(lines 115-119). -/
def choleskyLoop (solve : ℚ → List F → List F → List F) (fexp fsqrt : F → F)
    (y : List F) (lam ratio : ℚ) :
    ℕ → List F → Option (List F) → Option (List F)
  | 0, _, z => z
  | k + 1, w, _ =>
      if flt (fdiv
          (fsqrt (sumSq (fsubList w (arplsNext solve fexp fsqrt y lam w))))
          (fsqrt (sumSq w))) (F.fin ratio) then
        some (arplsZ solve y lam w)
      else
        choleskyLoop solve fexp fsqrt y lam ratio k
          (arplsNext solve fexp fsqrt y lam w) (some (arplsZ solve y lam w))

/-- `baseline_subtract_arpls_cholesky(y, lam, ratio, itermax)`
(lines 102-128).  There is no `itermax` guard: with `itermax = 0` the loop
body never runs and `return z` (line 128) raises `UnboundLocalError` after
the penalty construction. -/
def baseline_subtract_arpls_cholesky (solve : ℚ → List F → List F → List F)
    (fexp fsqrt : F → F) (y : List F) (lam ratio : ℚ) (itermax : ℤ) :
    Except String (List F) :=
  match choleskyLoop solve fexp fsqrt y lam ratio itermax.toNat
      (List.replicate y.length 1) none with
  | some z => Except.ok z
  | none =>
      Except.error "UnboundLocalError: local variable z referenced before assignment"

/-!
## Processing mixin — `src/zuy/spectrum/emsa.py`
-/

/-- Reflect-mode boundary index (`scipy.ndimage` mode `'reflect'`:
`(d c b a | a b c d | d c b a)`), total in `j` via the period-`2n`
extension. -/
def reflectIdx (n : ℕ) (j : ℤ) : ℕ :=
  if (j % (2 * (n : ℤ))) < (n : ℤ) then (j % (2 * (n : ℤ))).toNat
  else (2 * (n : ℤ) - 1 - (j % (2 * (n : ℤ)))).toNat

/-- `scipy.ndimage.uniform_filter1d(y, size)` with the default reflect mode
and origin 0: the window at `i` covers `i - size//2 .. i - size//2 + size-1`. -/
def uniform_filter1d (y : List F) (size : ℕ) : List F :=
  (List.range y.length).map (fun i =>
    fdiv ((List.range size).foldl (fun s k =>
        fadd s (xAt y (reflectIdx y.length ((i : ℤ) + (k : ℤ) - ((size / 2 : ℕ) : ℤ)))))
      (F.fin 0)) (F.fin (size : ℚ)))

/-- `ProcessMixin.smooth(window_size)` (emsa.py lines 29-33): reject
`window_size < 1` before touching the data. -/
def smooth (y : List F) (window_size : ℤ) : Except String (List F) :=
  if window_size < 1 then
    Except.error "ValueError: window_size must be at least 1"
  else Except.ok (uniform_filter1d y window_size.toNat)

/-- The clamp floor 1e-10 of emsa.py line 61. -/
def floorVal : ℚ := mkRat 1 10000000000

/-- `ProcessMixin.baseline_correction(niter, lam, p, y_offset)`
(emsa.py lines 35-61): variant A baseline subtraction, then `y += y_offset`,
then `self.y = np.maximum(y, 1e-10)`. -/
def baseline_correction (solve : NpMat → List F → List F) (y : List F)
    (niter : ℤ) (lam p y_offset : ℚ) : Except String (List F) :=
  (baseline_subtract_classic solve y niter lam p).map
    (fun corr => (faddScalar corr y_offset).map
      (fun v => fmaximum v (F.fin floorVal)))

example :
    baseline_subtract_classic (fun _ rhs => rhs) [F.fin 1] 1 1 (mkRat 1 200)
      = Except.ok [F.fin 0] := rfl
example :
    baseline_correction (fun _ rhs => rhs) [F.fin 1] 1 1 (mkRat 1 200) 0
      = Except.ok [F.fin floorVal] := rfl
example :
    baseline_subtract_arpls (fun _ _ rhs => rhs) (fun _ => F.fin 0)
      (fun v => v) [F.fin 1] 1 1 1
      = Except.ok ([F.fin 1], false) := rfl

/-!
## Claim theorems for the baseline family
-/

/-- C3 counterexample: the claim says all three variants build an L×(L-2)
penalty operator; variant C (cholesky) builds `eye(N)[1:] - eye(N)[:-1]`, an
(N-1)×N first-difference operator: at L = 5 its shape is 4×5, not 5×3. -/
theorem c3_counterexample :
    (choleskyD 5).rows = 4 ∧ (choleskyD 5).cols = 5 ∧
      ¬((choleskyD 5).rows = 5 ∧ (choleskyD 5).cols = 3) := by
  refine ⟨rfl, rfl, ?_⟩
  intro hcontra
  exact absurd hcontra.1 (by decide)

/-- C3 (amended): variants A and B build the second-difference penalty
operator of shape L×(L-2) (lines 19 and 77-78), whose term is `λ·D·Dᵀ`;
variant C instead builds a first-difference operator of shape (L-1)×L
(lines 108-109), with penalty `λ·Dᵀ·D`. -/
theorem c3_penalty_shapes (L : ℕ) (h : 2 ≤ L) :
    (classicD L).rows = L ∧ (classicD L).cols = L - 2 ∧
      (arplsD L).rows = L ∧ (arplsD L).cols = L - 2 ∧
      (choleskyD L).rows = L - 1 ∧ (choleskyD L).cols = L ∧
      ∀ i j, (choleskyD L).entry i j =
        if j = i + 1 then 1 else if j = i then -1 else 0 := by
  refine ⟨rfl, rfl, rfl, rfl, rfl, rfl, ?_⟩
  intro i j
  show qadd (if i + 1 = j then 1 else 0) (-(if i = j then 1 else 0)) = _
  rw [qadd_eq]
  split_ifs <;> first | (exfalso; omega) | norm_num

/-- Witness for `c3_penalty_shapes` at L = 5 (entries sampled at row 0). -/
theorem c3_penalty_shapes_witness :
    (classicD 5).rows = 5 ∧ (classicD 5).cols = 3 ∧
      (arplsD 5).rows = 5 ∧ (arplsD 5).cols = 3 ∧
      (choleskyD 5).rows = 4 ∧ (choleskyD 5).cols = 5 ∧
      (choleskyD 5).entry 0 1 = 1 ∧ (choleskyD 5).entry 0 0 = -1 ∧
      (choleskyD 5).entry 0 2 = 0 := by
  have h := c3_penalty_shapes 5 (by decide)
  refine ⟨h.1, h.2.1, h.2.2.1, h.2.2.2.1, h.2.2.2.2.1, h.2.2.2.2.2.1,
    ?_, ?_, ?_⟩
  · simpa using h.2.2.2.2.2.2 0 1
  · simpa using h.2.2.2.2.2.2 0 0
  · simpa using h.2.2.2.2.2.2 0 2

/-- C4 counterexample: variant C with `itermax = 0` is not rejected as an
invalid configuration; it fails at `return z` with an unbound-local error
(after constructing the penalty), unlike the `niter` guard of variants A
and B. -/
theorem c4_counterexample :
    baseline_subtract_arpls_cholesky (fun _ _ rhs => rhs) (fun v => v)
        (fun v => v) [F.fin 1, F.fin 2, F.fin 3] 1 1 0 =
      Except.error
        "UnboundLocalError: local variable z referenced before assignment" ∧
    baseline_subtract_arpls_cholesky (fun _ _ rhs => rhs) (fun v => v)
        (fun v => v) [F.fin 1, F.fin 2, F.fin 3] 1 1 0 ≠
      Except.error "ValueError: niter must be >= 1" := by
  refine ⟨rfl, ?_⟩
  intro hcontra
  exact absurd (Except.error.inj hcontra) (by decide)

/-- C4 (amended): an iteration count of 0 is rejected before any computation
with the invalid-configuration error "niter must be >= 1" by variant A
(line 15) and variant B (line 73) — independently of the signal and of the
solver — and a window size of 0 is likewise rejected by smoothing (emsa.py
lines 31-32); variant C has no guard and instead fails with an
UnboundLocalError at `return z` when `itermax = 0`. -/
theorem c4_zero_iterations (solveC : NpMat → List F → List F)
    (solveA solveK : ℚ → List F → List F → List F) (fexp fsqrt : F → F)
    (y : List F) (lam p ratio : ℚ) :
    baseline_subtract_classic solveC y 0 lam p =
        Except.error "ValueError: niter must be >= 1" ∧
      baseline_subtract_arpls solveA fexp fsqrt y lam ratio 0 =
        Except.error "ValueError: niter must be >= 1" ∧
      baseline_subtract_arpls_cholesky solveK fexp fsqrt y lam ratio 0 =
        Except.error
          "UnboundLocalError: local variable z referenced before assignment" ∧
      smooth y 0 = Except.error "ValueError: window_size must be at least 1" :=
  ⟨rfl, rfl, rfl, rfl⟩

theorem classicLoop_some (solve : NpMat → List F → List F) (y : List F)
    (lam p : ℚ) :
    ∀ (k : ℕ) (w : List ℚ) (z : List F),
      ∃ z', classicLoop solve y lam p k w (some z) = some z' := by
  intro k
  induction k with
  | zero => exact fun w z => ⟨z, rfl⟩
  | succ n ih => exact fun w z => ih _ _

theorem classicZ_some (solve : NpMat → List F → List F) (y : List F)
    (lam p : ℚ) (m : ℕ) :
    ∃ z, classicZ solve y lam p (m + 1) = some z := by
  rw [classicZ, classicLoop]
  exact classicLoop_some solve y lam p m _ _

/-- C5 counterexample: a solve yielding `+inf` at every sample makes the
corrected output `y - z` non-finite at every position, yet the function
accepts it: line 29 tests `np.isnan(corr).all()`, which is false for an
all-`-inf` output, so "non-finite at every position" is not the error
condition. -/
theorem c5_counterexample :
    baseline_subtract_classic (fun _ _ => [F.inf, F.inf, F.inf])
        [F.fin 0, F.fin 0, F.fin 0] 1 1 (mkRat 1 200) =
      Except.ok [F.ninf, F.ninf, F.ninf] ∧
    (∀ v ∈ [F.ninf, F.ninf, F.ninf], v.isFinite = false) :=
  ⟨rfl, by decide⟩

/-- C5 (amended): variant A raises exactly when `niter < 1` (the
configuration guard, independent of signal and solver) or when the corrected
output `y - z` is NaN at every position; a partially-NaN (or non-finite but
NaN-free) output is accepted and returned without error. -/
theorem c5_classic_error_condition (solve : NpMat → List F → List F)
    (y : List F) (niter : ℤ) (lam p : ℚ) (z : List F)
    (h1 : 1 ≤ niter) (h2 : classicZ solve y lam p niter.toNat = some z) :
    (∀ m : ℤ, m < 1 → baseline_subtract_classic solve y m lam p =
        Except.error "ValueError: niter must be >= 1") ∧
      (baseline_subtract_classic solve y niter lam p =
          Except.error "ValueError: baseline correction failed" ↔
        (fsubList y z).all isnan = true) ∧
      ((fsubList y z).all isnan = false →
        baseline_subtract_classic solve y niter lam p =
          Except.ok (fsubList y z)) := by
  have key : baseline_subtract_classic solve y niter lam p =
      if (fsubList y z).all isnan then
        Except.error "ValueError: baseline correction failed"
      else Except.ok (fsubList y z) := by
    rw [baseline_subtract_classic, if_neg (by omega), h2]
  refine ⟨fun m hm => by rw [baseline_subtract_classic, if_pos hm], ?_, ?_⟩
  · rw [key]
    constructor
    · intro he
      by_contra hn
      rw [if_neg hn] at he
      exact Except.noConfusion he
    · intro ha
      rw [if_pos ha]
  · intro hn
    rw [key, if_neg (by rw [hn]; exact Bool.false_ne_true)]

/-- Witness for `c5_classic_error_condition`: with the identity solve and
`y = [1]`, the single iteration yields `z = [1]`, the corrected output
`[0]` is not all-NaN, and the function returns it. -/
theorem c5_classic_error_condition_witness :
    baseline_subtract_classic (fun _ rhs => rhs) [F.fin 1] 1 1 (mkRat 1 200) =
      Except.ok (fsubList [F.fin 1] [F.fin 1]) :=
  (c5_classic_error_condition (fun _ rhs => rhs) [F.fin 1] 1 1 (mkRat 1 200)
    [F.fin 1] (by decide) rfl).2.2 (by decide)

/-- Whether some iteration of the arPLS loop, started at `w` with `k`
iterations remaining, meets the convergence criterion `crit < ratio`. -/
def arplsConverges (solve : ℚ → List F → List F → List F) (fexp fsqrt : F → F)
    (y : List F) (lam ratio : ℚ) : ℕ → List F → Bool
  | 0, _ => false
  | k + 1, w =>
      flt (arplsCrit solve fexp fsqrt y lam w) (F.fin ratio)
        || arplsConverges solve fexp fsqrt y lam ratio k
          (arplsNext solve fexp fsqrt y lam w)

theorem arplsLoop_warned (solve : ℚ → List F → List F → List F)
    (fexp fsqrt : F → F) (y : List F) (lam ratio : ℚ) :
    ∀ (k : ℕ) (w : List F) (z0 : Option (List F)),
      (arplsLoop solve fexp fsqrt y lam ratio k w z0).2 =
        !(arplsConverges solve fexp fsqrt y lam ratio k w) := by
  intro k
  induction k with
  | zero => intro w z0; rfl
  | succ n ih =>
    intro w z0
    cases hb : flt (arplsCrit solve fexp fsqrt y lam w) (F.fin ratio) with
    | false => simp [arplsLoop, arplsConverges, hb, ih]
    | true => simp [arplsLoop, arplsConverges, hb]

theorem arplsLoop_ok (solve : ℚ → List F → List F → List F)
    (fexp fsqrt : F → F) (y : List F) (lam ratio : ℚ) :
    ∀ (k : ℕ) (w : List F) (z0 : Option (List F)),
      ∃ w', (arplsLoop solve fexp fsqrt y lam ratio (k + 1) w z0).1 =
        some (arplsZ solve y lam w') := by
  intro k
  induction k with
  | zero =>
    intro w z0
    cases hb : flt (arplsCrit solve fexp fsqrt y lam w) (F.fin ratio) with
    | false => exact ⟨w, by simp [arplsLoop, hb]⟩
    | true => exact ⟨w, by simp [arplsLoop, hb]⟩
  | succ n ih =>
    intro w z0
    cases hb : flt (arplsCrit solve fexp fsqrt y lam w) (F.fin ratio) with
    | true => exact ⟨w, by simp [arplsLoop, hb]⟩
    | false =>
      obtain ⟨w', hw⟩ := ih (arplsNext solve fexp fsqrt y lam w)
        (some (arplsZ solve y lam w))
      refine ⟨w', ?_⟩
      rw [arplsLoop, if_neg (by simp [hb])]
      exact hw

/-- C6: arPLS (a) never raises for `niter ≥ 1` and returns a
solver-produced baseline `z` itself (not `y - z`), together with the warning
flag; (b) stops as soon as the relative weight change `‖w_new - w‖/‖w‖`
drops below `ratio` — the result is then independent of the remaining
iteration budget and the warning is not emitted; (c) the "max iterations
exceeded" message is printed exactly when no iteration met the criterion,
and it is only a flag, never an exception. -/
theorem c6_arpls_convergence (solve : ℚ → List F → List F → List F)
    (fexp fsqrt : F → F) (y : List F) (lam ratio : ℚ) (niter : ℤ)
    (h : 1 ≤ niter) :
    (∃ w' warned, baseline_subtract_arpls solve fexp fsqrt y lam ratio niter =
        Except.ok (arplsZ solve y lam w', warned)) ∧
      (∀ (k : ℕ) (w : List F) (z0 : Option (List F)),
        flt (arplsCrit solve fexp fsqrt y lam w) (F.fin ratio) = true →
          arplsLoop solve fexp fsqrt y lam ratio (k + 1) w z0 =
            (some (arplsZ solve y lam w), false)) ∧
      (∀ (k : ℕ) (w : List F) (z0 : Option (List F)),
        (arplsLoop solve fexp fsqrt y lam ratio k w z0).2 =
          !(arplsConverges solve fexp fsqrt y lam ratio k w)) := by
  refine ⟨?_, ?_, arplsLoop_warned solve fexp fsqrt y lam ratio⟩
  · obtain ⟨m, hm⟩ : ∃ m, niter.toNat = m + 1 := ⟨niter.toNat - 1, by omega⟩
    rw [baseline_subtract_arpls, if_neg (by omega), hm]
    obtain ⟨w', hw⟩ := arplsLoop_ok solve fexp fsqrt y lam ratio m
      (List.replicate y.length 1) none
    rcases hp : arplsLoop solve fexp fsqrt y lam ratio (m + 1)
      (List.replicate y.length 1) none with ⟨zopt, warned⟩
    rw [hp] at hw
    simp only at hw
    rw [hw]
    exact ⟨w', warned, rfl⟩
  · intro k w z0 hcrit
    rw [arplsLoop, if_pos hcrit]

/-- Witness for `c6_arpls_convergence` at concrete kernels: with the
identity solve, constant-zero `exp` and identity `sqrt`, the first
iteration converges and the call succeeds. -/
theorem c6_arpls_convergence_witness :
    (baseline_subtract_arpls (fun _ _ rhs => rhs) (fun _ => F.fin 0)
      (fun v => v) [F.fin 1] 1 1 1).isOk = true := by
  obtain ⟨w', warned, hok⟩ := (c6_arpls_convergence (fun _ _ rhs => rhs)
    (fun _ => F.fin 0) (fun v => v) [F.fin 1] 1 1 1 (by decide)).1
  rw [hok]
  rfl

theorem fmaximum_floor (u : F) :
    ((fmaximum u (F.fin floorVal)).isnan = false →
      fle (F.fin floorVal) (fmaximum u (F.fin floorVal)) = true) ∧
    fmaximum u (F.fin floorVal) ≠ F.fin 0 ∧
    flt (fmaximum u (F.fin floorVal)) (F.fin 0) = false := by
  cases u with
  | nan => exact ⟨fun hf => absurd hf (by decide), by decide, by decide⟩
  | inf => exact ⟨fun _ => by decide, by decide, by decide⟩
  | ninf => exact ⟨fun _ => by decide, by decide, by decide⟩
  | fin q =>
    by_cases hq : flt (F.fin q) (F.fin floorVal) = true
    · have hv : fmaximum (F.fin q) (F.fin floorVal) = F.fin floorVal := by
        simp [fmaximum, isnan, hq]
      rw [hv]
      exact ⟨fun _ => by decide, by decide, by decide⟩
    · have hq' : floorVal ≤ q := by
        simp only [flt, decide_eq_true_eq] at hq
        exact le_of_not_lt hq
      have hq0 : (0 : ℚ) < floorVal := by decide
      have hv : fmaximum (F.fin q) (F.fin floorVal) = F.fin q := by
        simp [fmaximum, isnan, hq]
      rw [hv]
      refine ⟨fun _ => ?_, ?_, ?_⟩
      · simp only [fle, decide_eq_true_eq]
        exact hq'
      · intro he
        rw [F.fin.injEq] at he
        subst he
        exact absurd hq' (by decide)
      · simp only [flt, decide_eq_false_iff_not]
        linarith

/-- C7 counterexample: `np.maximum` propagates NaN, so a baseline
subtraction that leaves NaN at some position produces an output element that
is NaN — not `≥ 1e-10` — after the clamp. -/
theorem c7_counterexample :
    baseline_correction (fun _ _ => [F.nan, F.fin 0, F.fin 0])
        [F.fin 0, F.fin 0, F.fin 0] 1 1 (mkRat 1 200) 0 =
      Except.ok [F.nan, F.fin floorVal, F.fin floorVal] ∧
    fle (F.fin floorVal) F.nan = false :=
  ⟨rfl, by decide⟩

/-- C7 (amended): whenever `baseline_correction` succeeds, every output
element that is not NaN is at least the positive floor 1e-10, and no output
element is exactly zero or negative; an element that is NaN after baseline
subtraction plus offset stays NaN through the `np.maximum` clamp. -/
theorem c7_floor_clamp (solve : NpMat → List F → List F) (y : List F)
    (niter : ℤ) (lam p y_offset : ℚ) (out : List F)
    (h1 : 0 ≤ y_offset)
    (h2 : baseline_correction solve y niter lam p y_offset = Except.ok out) :
    ∀ v ∈ out, (v.isnan = false → fle (F.fin floorVal) v = true) ∧
      v ≠ F.fin 0 ∧ flt v (F.fin 0) = false := by
  intro v hv
  have hout : ∃ corr, out = (faddScalar corr y_offset).map
      (fun u => fmaximum u (F.fin floorVal)) := by
    rw [baseline_correction] at h2
    cases hcl : baseline_subtract_classic solve y niter lam p with
    | error e =>
      rw [hcl] at h2
      exact Except.noConfusion h2
    | ok corr =>
      rw [hcl] at h2
      exact ⟨corr, (Except.ok.inj h2).symm⟩
  obtain ⟨corr, hcorr⟩ := hout
  subst hcorr
  rw [List.mem_map] at hv
  obtain ⟨u, _, hu⟩ := hv
  rw [← hu]
  exact fmaximum_floor u

/-- Witness for `c7_floor_clamp`: the identity solve on `y = [1]` with zero
offset produces the single output element `1e-10`, which satisfies the
floor. -/
theorem c7_floor_clamp_witness :
    fle (F.fin floorVal) (F.fin floorVal) = true ∧
      F.fin floorVal ≠ F.fin 0 ∧ flt (F.fin floorVal) (F.fin 0) = false := by
  have h := c7_floor_clamp (fun _ rhs => rhs) [F.fin 1] 1 1 (mkRat 1 200) 0
    [F.fin floorVal] (by decide) rfl (F.fin floorVal)
    (List.mem_singleton.mpr rfl)
  exact ⟨h.1 (by decide), h.2.1, h.2.2⟩

theorem classicWeight_self (p : ℚ) (v : F) : classicWeight p v v = 0 := by
  have h1 : fgt v v = false := by cases v <;> simp [fgt, flt]
  have h2 : flt v v = false := by cases v <;> simp [flt]
  rw [classicWeight, h1, h2]
  simp [qadd_eq, qmul_eq]

/-- C10: in variant A's weight update `w = p*(y > z) + (1-p)*(y < z)`
(line 26), a sample exactly equal to the current baseline estimate satisfies
neither strict comparison and receives weight 0 — neither `p` nor `1-p` —
so it contributes nothing to the data-fit term of the next solve; a signal
equal to the estimate everywhere gets the all-zero weight vector. -/
theorem c10_exact_baseline_zero_weight (p : ℚ) (v : F) (y : List F) :
    classicWeight p v v = 0 ∧
      List.zipWith (fun yi zi => classicWeight p yi zi) y y =
        List.replicate y.length 0 := by
  refine ⟨classicWeight_self p v, ?_⟩
  induction y with
  | nil => rfl
  | cons a t ih =>
    simp [List.zipWith, classicWeight_self, List.replicate_succ, ih]
